import Mathlib

/-
Verification of the collection-reshaping engine (collate, drop, drop_empty,
flatten, with, with_update, with_replace) and the rate-limit header policy
interpreter (generic policy, Okta dialect, draft-IETF dialect) of the mito
library.

The dynamic value space exchanged with the expression evaluator is modelled
by the inductive type Value below.  The source dispatches on the CEL traits
Lister and Mapper and treats every other value uniformly as a scalar, so the
model keeps two container constructors (list, map) and a representative set
of scalar constructors (int, str) plus the CEL error value (err), which the
source produces from recovered panics.  Map values in all code paths of the
engine are keyed by strings; Go map iteration order is unspecified, and the
model fixes it to association-list order, which is sound for the order
insensitive properties proved here.  Strings are treated at the character
level; all paths exercised by the source and its fixtures are ASCII, where
Go byte indexing and character indexing coincide.
-/

namespace Mito

inductive Value where
  | int (n : Int)
  | str (s : String)
  | err (msg : String)
  | list (xs : List Value)
  | map (kvs : List (String × Value))
deriving Repr

mutual

def Value.beqF : Value → Value → Bool
  | .int a, .int b => a == b
  | .str a, .str b => a == b
  | .err a, .err b => a == b
  | .list a, .list b => Value.beqL a b
  | .map a, .map b => Value.beqK a b
  | _, _ => false

def Value.beqL : List Value → List Value → Bool
  | [], [] => true
  | a :: as, b :: bs => Value.beqF a b && Value.beqL as bs
  | _, _ => false

def Value.beqK : List (String × Value) → List (String × Value) → Bool
  | [], [] => true
  | (ka, va) :: as, (kb, vb) :: bs => ka == kb && Value.beqF va vb && Value.beqK as bs
  | _, _ => false

end

mutual

theorem Value.beqF_iff : ∀ a b : Value, Value.beqF a b = true ↔ a = b
  | .int _, .int _ => by simp [Value.beqF]
  | .str _, .str _ => by simp [Value.beqF]
  | .err _, .err _ => by simp [Value.beqF]
  | .list a, .list b => by simp [Value.beqF, Value.beqL_iff a b]
  | .map a, .map b => by simp [Value.beqF, Value.beqK_iff a b]
  | .int _, .str _ => by simp [Value.beqF]
  | .int _, .err _ => by simp [Value.beqF]
  | .int _, .list _ => by simp [Value.beqF]
  | .int _, .map _ => by simp [Value.beqF]
  | .str _, .int _ => by simp [Value.beqF]
  | .str _, .err _ => by simp [Value.beqF]
  | .str _, .list _ => by simp [Value.beqF]
  | .str _, .map _ => by simp [Value.beqF]
  | .err _, .int _ => by simp [Value.beqF]
  | .err _, .str _ => by simp [Value.beqF]
  | .err _, .list _ => by simp [Value.beqF]
  | .err _, .map _ => by simp [Value.beqF]
  | .list _, .int _ => by simp [Value.beqF]
  | .list _, .str _ => by simp [Value.beqF]
  | .list _, .err _ => by simp [Value.beqF]
  | .list _, .map _ => by simp [Value.beqF]
  | .map _, .int _ => by simp [Value.beqF]
  | .map _, .str _ => by simp [Value.beqF]
  | .map _, .err _ => by simp [Value.beqF]
  | .map _, .list _ => by simp [Value.beqF]

theorem Value.beqL_iff : ∀ a b : List Value, Value.beqL a b = true ↔ a = b
  | [], [] => by simp [Value.beqL]
  | a :: as, b :: bs => by
      simp [Value.beqL, Value.beqF_iff a b, Value.beqL_iff as bs]
  | [], _ :: _ => by simp [Value.beqL]
  | _ :: _, [] => by simp [Value.beqL]

theorem Value.beqK_iff : ∀ a b : List (String × Value), Value.beqK a b = true ↔ a = b
  | [], [] => by simp [Value.beqK]
  | (_, va) :: as, (_, vb) :: bs => by
      simp [Value.beqK, Value.beqF_iff va vb, Value.beqK_iff as bs, and_assoc]
  | [], _ :: _ => by simp [Value.beqK]
  | _ :: _, [] => by simp [Value.beqK]

end

instance : DecidableEq Value := fun a b =>
  decidable_of_iff (Value.beqF a b = true) (Value.beqF_iff a b)

/-- Whether a value is a CEL Lister, i.e. matches the traits.Lister type
assertions used throughout the source. -/
def Value.isList : Value → Bool
  | .list _ => true
  | _ => false

/-- Whether a value satisfies the iterator interface of the source, i.e. is a
CEL Lister or Mapper.  Scalars, including strings, do not satisfy it. -/
def isContainer : Value → Bool
  | .list _ => true
  | .map _ => true
  | _ => false

/-- Size of a container in the sense of traits.Sizer, as consulted by
dropEmpty and hasEmpty; only applied to lists and maps in the source. -/
def vsize : Value → Nat
  | .list xs => xs.length
  | .map kvs => kvs.length
  | _ => 0

/-
Path addressing.  pathSepIndex mirrors the Go function of the same name:
it returns the offset of the first non-escaped dot separator together with
a flag telling whether an escaped dot (a dot directly preceded by a
backslash) was skipped before it.  The Go loop jumps from dot to dot with
strings.IndexByte and inspects the byte before each dot; the model walks
the characters once, carrying the previous character, which visits exactly
the same dots with the same predecessor tests.
-/

def pathSepIndexGo : List Char → Option Char → Nat → Bool → Option Nat × Bool
  | [], _, _, esc => (none, esc)
  | c :: rest, prev, pos, esc =>
    if c = '.' then
      if pos = 0 ∨ prev ≠ some '\\' then (some pos, esc)
      else pathSepIndexGo rest (some c) (pos + 1) true
    else pathSepIndexGo rest (some c) (pos + 1) esc

def pathSepIndex (s : String) : Option Nat × Bool :=
  pathSepIndexGo s.data none 0 false

/-- Replacement of every backslash-dot pair by a dot, as performed by
strings.ReplaceAll(head, backslash-dot, dot) on an escaped head segment. -/
def unescapeDots : List Char → List Char
  | '\\' :: '.' :: rest => '.' :: unescapeDots rest
  | c :: rest => c :: unescapeDots rest
  | [] => []

def unescape (s : String) : String := String.mk (unescapeDots s.data)

/-- Head segment of a path split at separator offset i, unescaped when the
scan saw an escaped dot, exactly as in the three FieldPath functions. -/
def headSeg (path : String) (i : Nat) (esc : Bool) : String :=
  if esc then unescape (String.mk (path.data.take i)) else String.mk (path.data.take i)

/-- Tail of a path after the separator at offset i. -/
def tailSeg (path : String) (i : Nat) : String :=
  String.mk (path.data.drop (i + 1))

def invalidPathMsg (path : String) : String :=
  "invalid parameter path for drop: " ++ path

/-
hasFieldPath mirrors the Go hasFieldPath: lists are searched element-wise
(first hit wins), maps split the path at the first unescaped dot, erroring
on an empty head or tail segment; with no separator the raw remaining path
is compared against the keys with no unescaping; otherwise the walk
recurses through the first entry whose key equals the unescaped head.  The
Go function signals the format error by panicking with a CEL error value;
the model returns it in the Except error channel.
-/

/-- Key membership test used by the separator-free branch of the map case,
which compares each key against the raw remaining path. -/
def hasKey (kvs : List (String × Value)) (path : String) : Bool :=
  kvs.any (fun kv => kv.1 == path)

mutual

def hasFieldPath (arg : Value) (path : String) : Except String Bool :=
  match arg with
  | .list xs => hasFieldList xs path
  | .map kvs =>
    match pathSepIndex path with
    | (none, _) => .ok (hasKey kvs path)
    | (some i, esc) =>
      if i = 0 ∨ i = path.length - 1 then .error (invalidPathMsg path)
      else hasFieldKvs kvs (headSeg path i esc) (tailSeg path i)
  | _ => .ok false

def hasFieldList (xs : List Value) (path : String) : Except String Bool :=
  match xs with
  | [] => .ok false
  | x :: rest =>
    match hasFieldPath x path with
    | .error e => .error e
    | .ok true => .ok true
    | .ok false => hasFieldList rest path

def hasFieldKvs (kvs : List (String × Value)) (head tail : String) : Except String Bool :=
  match kvs with
  | [] => .ok false
  | (k, v) :: rest =>
    if k == head then hasFieldPath v tail else hasFieldKvs rest head tail

end

/-
dropFieldPath mirrors the Go dropFieldPath.  The function first runs the
hasFieldPath existence walk; a recovered panic becomes an error value, an
absent path returns the argument itself, and only an existing path causes
the structure to be rebuilt.  The rebuild drops the raw remaining path as
a key when no separator is left, and otherwise rewrites the entry whose
key equals the unescaped head by recursing with the tail.
-/

mutual

def dropFieldL (xs : List Value) (path : String) : List Value :=
  match xs with
  | [] => []
  | x :: rest => dropFieldElem x path :: dropFieldL rest path

def dropFieldKvs (kvs : List (String × Value)) (head tail : String) : List (String × Value) :=
  match kvs with
  | [] => []
  | (k, v) :: rest =>
    (if k == head then (head, dropFieldElem v tail) else (k, v)) :: dropFieldKvs rest head tail

def dropFieldElem (arg : Value) (path : String) : Value :=
  match hasFieldPath arg path with
  | .error e => .err e
  | .ok false => arg
  | .ok true =>
    match arg with
    | .list xs => .list (dropFieldL xs path)
    | .map kvs =>
      match pathSepIndex path with
      | (none, _) => .map (kvs.filter (fun kv => kv.1 != path))
      | (some i, esc) =>
        if i = 0 ∨ i = path.length - 1 then .err (invalidPathMsg path)
        else .map (dropFieldKvs kvs (headSeg path i esc) (tailSeg path i))
    | v => v

end

def dropFieldPath (arg : Value) (path : String) : Value :=
  dropFieldElem arg path

instance {ε α : Type} [DecidableEq ε] [DecidableEq α] : DecidableEq (Except ε α) := fun a b =>
  match a, b with
  | .ok x, .ok y =>
    if h : x = y then isTrue (by rw [h]) else isFalse (by intro hc; cases hc; exact h rfl)
  | .error x, .error y =>
    if h : x = y then isTrue (by rw [h]) else isFalse (by intro hc; cases hc; exact h rfl)
  | .ok _, .error _ => isFalse (by intro hc; cases hc)
  | .error _, .ok _ => isFalse (by intro hc; cases hc)

/-
collateFieldPath mirrors the Go collateFieldPath.  Lists concatenate the
collations of their elements; maps with no separator left splice a matched
list value flat and append any other matched value whole; maps with a
separator recurse through entries whose key equals the unescaped head; a
scalar contributes itself exactly when the path is exhausted (the empty
string).  Format errors propagate as panics in Go; here in the Except
error channel, caught by collateFields.
-/

/-- Terminal map hit of collate: a matched list value is spliced flat, any
other matched value is appended whole. -/
def spliceMatches (kvs : List (String × Value)) (path : String) : List Value :=
  match kvs with
  | [] => []
  | (k, v) :: rest =>
    (if k == path then
      match v with
      | .list xs => xs
      | w => [w]
    else []) ++ spliceMatches rest path

mutual

def collateFieldPath (arg : Value) (path : String) : Except String (List Value) :=
  match arg with
  | .list xs => collateFieldL xs path
  | .map kvs =>
    match pathSepIndex path with
    | (none, _) => .ok (spliceMatches kvs path)
    | (some i, esc) =>
      if i = 0 ∨ i = path.length - 1 then .error (invalidPathMsg path)
      else collateFieldKvs kvs (headSeg path i esc) (tailSeg path i)
  | v => if path == "" then .ok [v] else .ok []

def collateFieldL (xs : List Value) (path : String) : Except String (List Value) :=
  match xs with
  | [] => .ok []
  | x :: rest =>
    match collateFieldPath x path with
    | .error e => .error e
    | .ok a =>
      match collateFieldL rest path with
      | .error e => .error e
      | .ok b => .ok (a ++ b)

def collateFieldKvs (kvs : List (String × Value)) (head tail : String) : Except String (List Value) :=
  match kvs with
  | [] => .ok []
  | (k, v) :: rest =>
    if k == head then
      match collateFieldPath v tail with
      | .error e => .error e
      | .ok a =>
        match collateFieldKvs rest head tail with
        | .error e => .error e
        | .ok b => .ok (a ++ b)
    else collateFieldKvs rest head tail

end

/-- Entry point for collate with a single string path: the recovered panic
of the Go collateFields becomes an error value, a successful collation is
wrapped in a list value. -/
def collateFields (arg : Value) (path : String) : Value :=
  match collateFieldPath arg path with
  | .ok vs => .list vs
  | .error e => .err e

/-
flatten mirrors the Go flatten and flattenParts.  flattenParts first scans
the immediate elements of its list; on the first non-Lister element the
whole list is concatenated onto the result unchanged, and only when every
element is a Lister does it recurse into each of them.  The non-list case
of flattenParts is unreachable in the source, which only calls it on
Listers; the model maps it to a singleton.
-/

mutual

def flattenParts : Value → List Value
  | .list xs => if xs.all Value.isList then flattenJoin xs else xs
  | v => [v]

def flattenJoin : List Value → List Value
  | [] => []
  | x :: rest => flattenParts x ++ flattenJoin rest

end

def flatten (arg : Value) : Value :=
  match arg with
  | .list xs => .list (flattenParts (.list xs))
  | _ => .err "no such overload"

/-
The with family.  The Go helper with() copies dst into a fresh native map
and hands back the native src map; each variant then folds the src entries
into the copy.  Go map assignment is modelled by mapSet, which overwrites
in place when the key exists and appends otherwise.
-/

def mapContains (m : List (String × Value)) (k : String) : Bool :=
  m.any (fun kv => kv.1 == k)

def mapSet (m : List (String × Value)) (k : String) (v : Value) : List (String × Value) :=
  if mapContains m k then m.map (fun kv => if kv.1 == k then (k, v) else kv)
  else m ++ [(k, v)]

/-- Source withAll: every src entry overwrites or is added. -/
def withAll (dst src : Value) : Value :=
  match dst, src with
  | .map d, .map s => .map (s.foldl (fun m kv => mapSet m kv.1 kv.2) d)
  | .map _, _ => .err "unsupported src type"
  | _, _ => .err "no such overload"

/-- Source withUpdate: a src entry is added only when its key is absent. -/
def withUpdate (dst src : Value) : Value :=
  match dst, src with
  | .map d, .map s =>
      .map (s.foldl (fun m kv => if mapContains m kv.1 then m else mapSet m kv.1 kv.2) d)
  | .map _, _ => .err "unsupported src type"
  | _, _ => .err "no such overload"

/-- Source withReplace: a src entry replaces only when its key is present. -/
def withReplace (dst src : Value) : Value :=
  match dst, src with
  | .map d, .map s =>
      .map (s.foldl (fun m kv => if mapContains m kv.1 then mapSet m kv.1 kv.2 else m) d)
  | .map _, _ => .err "unsupported src type"
  | _, _ => .err "no such overload"

/-
hasEmpty and dropEmpty mirror the Go functions.  hasEmpty reports whether a
container holds, at any depth, a zero-sized list or map; scalars are never
empty.  dropEmpty returns non-containers and containers without nested
empties unchanged, and otherwise rebuilds the container, skipping elements
that are empty containers or that become empty containers after recursive
pruning.
-/

mutual

def hasEmpty : Value → Bool
  | .list xs => hasEmptyL xs
  | .map kvs => hasEmptyK kvs
  | _ => false

def hasEmptyL : List Value → Bool
  | [] => false
  | x :: rest => (isContainer x && (vsize x == 0 || hasEmpty x)) || hasEmptyL rest

def hasEmptyK : List (String × Value) → Bool
  | [] => false
  | (_, v) :: rest => (isContainer v && (vsize v == 0 || hasEmpty v)) || hasEmptyK rest

end

mutual

def dropEmpty (val : Value) : Value :=
  if !isContainer val || !hasEmpty val then val
  else
    match val with
    | .list xs => .list (dropEmptyL xs)
    | .map kvs => .map (dropEmptyK kvs)
    | v => v

def dropEmptyL : List Value → List Value
  | [] => []
  | x :: rest =>
    (if isContainer x then
      if vsize x == 0 then []
      else
        let res := dropEmpty x
        if isContainer res && vsize res == 0 then [] else [res]
    else [x]) ++ dropEmptyL rest

def dropEmptyK : List (String × Value) → List (String × Value)
  | [] => []
  | (k, v) :: rest =>
    (if isContainer v then
      if vsize v == 0 then []
      else
        let res := dropEmpty v
        if isContainer res && vsize res == 0 then [] else [(k, res)]
    else [(k, v)]) ++ dropEmptyK rest

end

mutual

/-- Whether a value contains a Map anywhere within it.  The traversals of
the reshaper raise their malformed-path format error only from the Mapper
case, so a value without maps can never produce one. -/
def hasMapIn : Value → Bool
  | .map _ => true
  | .list xs => hasMapInL xs
  | _ => false

/-- List helper of hasMapIn. -/
def hasMapInL : List Value → Bool
  | [] => false
  | x :: rest => hasMapIn x || hasMapInL rest

end

mutual

/-- Depth-first sequence of the non-container leaves of a value built from
scalars and lists only. -/
def scalarLeaves : Value → List Value
  | .list xs => scalarLeavesL xs
  | .map _ => []
  | v => [v]

/-- List helper of scalarLeaves. -/
def scalarLeavesL : List Value → List Value
  | [] => []
  | x :: rest => scalarLeaves x ++ scalarLeavesL rest

end

/-
Rate-limit policy engine.  The three policy functions consume the values of
the three rate-limit headers as returned by the Go header lookups (Get
yields the empty string for a missing header, so a missing header and an
empty-valued one coincide, as in the source).  Times are modelled as exact
rational numbers of seconds: now is the instant captured by time.Now, a
time.Time is its Unix second count, Duration.Seconds and float64 arithmetic
are rational arithmetic, and converting a time to UTC does not change the
instant.  The fallback parsing of a Reset header through the two textual
date layouts (http.TimeFormat and time.RFC1123, both producing an absolute
time) is a parameter parseDate of the model; the numeric branch is modelled
in full.
-/

/-- Subset of Go unicode.IsSpace relevant to ASCII header values, used by
strings.TrimSpace. -/
def isGoSpace (c : Char) : Bool :=
  c == ' ' || c == '\t' || c == '\n' || c == Char.ofNat 11 || c == Char.ofNat 12 || c == '\r'

def dropSpaces : List Char → List Char
  | [] => []
  | c :: rest => if isGoSpace c then dropSpaces rest else c :: rest

/-- Model of strings.TrimSpace on ASCII data. -/
def goTrimSpace (s : String) : String :=
  String.mk ((dropSpaces (dropSpaces s.data).reverse).reverse)

/-- Model of strings.Split with a one-character separator: the list of
substrings between occurrences of the separator.  Never empty. -/
def splitOnChar (sep : Char) : List Char → List (List Char)
  | [] => [[]]
  | c :: rest =>
    match splitOnChar sep rest with
    | [] => [[]]
    | g :: gs => if c == sep then [] :: g :: gs else (c :: g) :: gs

def goSplit (s : String) (sep : Char) : List String :=
  (splitOnChar sep s.data).map String.mk

def charIndex (c : Char) : List Char → Option Nat
  | [] => none
  | x :: rest =>
    if x == c then some 0 else (charIndex c rest).map (· + 1)

def isPfx : List Char → List Char → Bool
  | [], _ => true
  | _, [] => false
  | p :: ps, c :: cs => p == c && isPfx ps cs

/-- Model of strings.HasPrefix. -/
def goHasPfx (s p : String) : Bool := isPfx p.data s.data

/-- Model of strings.TrimPrefix under a established HasPrefix check. -/
def goDropLen (s : String) (n : Nat) : String := String.mk (s.data.drop n)

def digitsValAux : List Char → Nat → Option Nat
  | [], acc => some acc
  | c :: rest, acc =>
    if c.isDigit then digitsValAux rest (acc * 10 + (c.toNat - 48)) else none

/-- Value of a non-empty all-digit string. -/
def digitsVal : List Char → Option Nat
  | [] => none
  | l => digitsValAux l 0

/-- Model of strconv.Atoi and of strconv.ParseInt(s, 10, 64): an optional
sign followed by at least one decimal digit.  The 64-bit range check is
omitted; no input considered here approaches it. -/
def goAtoi (s : String) : Option Int :=
  match s.data with
  | '+' :: rest => (digitsVal rest).map Int.ofNat
  | '-' :: rest => (digitsVal rest).map (fun n => -(n : Int))
  | l => (digitsVal l).map Int.ofNat

/-- Digit-string value where the empty string is allowed (contributing 0),
used for the two sides of a decimal point. -/
def digitsValOpt : List Char → Option Nat
  | [] => some 0
  | l => digitsValAux l 0

def parseFloatMag (l : List Char) : Option ℚ :=
  match charIndex '.' l with
  | none => (digitsVal l).map (fun n => (n : ℚ))
  | some i =>
    let ip := l.take i
    let fp := l.drop (i + 1)
    if (ip.isEmpty && fp.isEmpty) || fp.any (fun c => c == '.') then none
    else
      match digitsValOpt ip, digitsValOpt fp with
      | some n, some f => some ((n : ℚ) + (f : ℚ) / ((10 : ℚ) ^ fp.length))
      | _, _ => none

/-- Model of strconv.ParseFloat(s, 64) on the plain decimal fragment of its
grammar (optional sign, decimal digits, optional fraction).  Exponents,
inf/nan spellings and digit-separating underscores are outside the inputs
this engine is exercised with and are treated as parse failures, matching
the error path of the source for every input appearing in the claims. -/
def goParseFloat (s : String) : Option ℚ :=
  match s.data with
  | '+' :: rest => parseFloatMag rest
  | '-' :: rest => (parseFloatMag rest).map Neg.neg
  | l => parseFloatMag l

/-- Truncation toward zero, the behaviour of a Go float64-to-integer
conversion such as time.Duration(d). -/
def goTrunc (q : ℚ) : Int := if 0 ≤ q then ⌊q⌋ else ⌈q⌉

/-- Model of the fmt %q verb on the printable ASCII strings handled here:
surrounding quotes with backslash and quote escaped. -/
def goQuote (s : String) : String :=
  let esc := s.data.foldr
    (fun c acc =>
      if c == '\\' then '\\' :: '\\' :: acc
      else if c == '"' then '\\' :: '"' :: acc
      else c :: acc) []
  String.mk ('"' :: esc ++ ['"'])

/-- Result record of a rate-limit policy translation, one optional field
per key the source may set in its result map besides headers. -/
structure RateLimitResult where
  headers : String
  rate : Option ℚ
  next : Option ℚ
  burst : Option Int
  reset : Option ℚ
  error : Option String
deriving Repr, DecidableEq

/-- Headers field as rendered by the source with fmt.Sprintf and %q. -/
def headersField (pfx limit remaining reset : String) : String :=
  pfx ++ "-Limit=" ++ goQuote limit ++ " " ++
  pfx ++ "-Remaining=" ++ goQuote remaining ++ " " ++
  pfx ++ "-Reset=" ++ goQuote reset

def onlyHeaders (h : String) : RateLimitResult :=
  ⟨h, none, none, none, none, none⟩

def headersError (h e : String) : RateLimitResult :=
  ⟨h, none, none, none, none, some e⟩

def parseFloatErr (s : String) : String :=
  "strconv.ParseFloat: parsing " ++ goQuote s ++ ": invalid syntax"

def parseIntErr (s : String) : String :=
  "strconv.ParseInt: parsing " ++ goQuote s ++ ": invalid syntax"

def atoiErr (s : String) : String :=
  "strconv.Atoi: parsing " ++ goQuote s ++ ": invalid syntax"

def resetParseErr (s : String) : String :=
  "could not parse " ++ goQuote s ++ " as number or timestamp"

/-- OktaRateLimit translation: fixed X-Rate-Limit header names, Reset always
a Unix timestamp, burst fixed to 1. -/
def OktaRateLimit (limit remaining reset : String) (window : ℚ) (now : ℚ) : RateLimitResult :=
  let h := headersField "X-Rate-Limit" limit remaining reset
  if limit == "" || remaining == "" || reset == "" then onlyHeaders h
  else
    match goParseFloat limit with
    | none => headersError h (parseFloatErr limit)
    | some lim =>
      match goParseFloat remaining with
      | none => headersError h (parseFloatErr remaining)
      | some rem =>
        match goAtoi reset with
        | none => headersError h (parseIntErr reset)
        | some rst =>
          let resetTime : ℚ := (rst : ℚ)
          let per : ℚ := resetTime - now
          ⟨h, some (rem / per), some (lim / window), some 1, some resetTime, none⟩

/-- Reset parsing chain of the generic policy: an integer is a delta of
seconds from now when delta is set and a Unix timestamp otherwise, then the
textual date layouts; yields the initial per value and the reset time. -/
def parseReset (delta : Bool) (now : ℚ) (parseDate : String → Option ℚ)
    (reset : String) : Option (ℚ × ℚ) :=
  match goAtoi reset with
  | some d =>
    if delta then some ((d : ℚ), now + (d : ℚ))
    else some (((d : ℚ) - now), (d : ℚ))
  | none =>
    match parseDate reset with
    | some t => some ((t - now), t)
    | none => none

/-- limitPolicy, the generic parameterised policy translation, after header
lookup (the canonical flag only selects the lookup function and the three
looked-up values are taken as inputs here). -/
def limitPolicy (pfx limit remaining reset : String) (delta : Bool)
    (window : ℚ) (burst : Int) (now : ℚ) (parseDate : String → Option ℚ) : RateLimitResult :=
  let h := headersField pfx limit remaining reset
  if limit == "" || remaining == "" || reset == "" then onlyHeaders h
  else
    match goParseFloat limit with
    | none => headersError h (parseFloatErr limit)
    | some lim =>
      match goParseFloat remaining with
      | none => headersError h (parseFloatErr remaining)
      | some rem =>
        match parseReset delta now parseDate reset with
        | none => headersError h (resetParseErr reset)
        | some (per0, resetTime) =>
          let per := per0 * window
          ⟨h, some (rem / per), some (lim / window),
            some (if burst < 1 then 1 else burst), some resetTime, none⟩

/-- Quota of one comma-separated field of a draft Rate-Limit-Limit value:
the integer before the first semicolon, which must be present. -/
def policyQuota (p : String) : Except String Int :=
  match charIndex ';' p.data with
  | none => .error ("invalid policy: " ++ goQuote p)
  | some i =>
    match goAtoi (String.mk (p.data.take i)) with
    | some n => .ok n
    | none => .error (atoiErr (String.mk (p.data.take i)))

def policyDetailsGo : List String → Int → Int → Except String (Int × Int)
  | [], window, burst => .ok (window, burst)
  | f :: rest, window, burst =>
    let f := goTrimSpace f
    if goHasPfx f "window=" then
      match goAtoi (goDropLen f 7) with
      | some w => policyDetailsGo rest w burst
      | none => .error (atoiErr (goDropLen f 7))
    else if goHasPfx f "burst=" then
      match goAtoi (goDropLen f 6) with
      | some b => policyDetailsGo rest window b
      | none => .error (atoiErr (goDropLen f 6))
    else policyDetailsGo rest window burst

/-- Window and burst of a draft sub-policy field: last write wins across
its semicolon-separated parts, with minus one meaning unspecified. -/
def policyDetails (p : String) : Except String (Int × Int) :=
  policyDetailsGo (goSplit p ';') (-1) (-1)

/-- Scan of the draft sub-policy fields: stops at the first field whose
quota exceeds the primary quota, and otherwise overwrites the effective
window when one is given and the burst when a positive one is given. -/
def draftScan (quota : Int) : List String → ℚ → Int → Except String (ℚ × Int)
  | [], win, burst => .ok (win, burst)
  | f :: rest, win, burst =>
    let p := goTrimSpace f
    match policyQuota p with
    | .error e => .error e
    | .ok q =>
      if q > quota then .ok (win, burst)
      else
        match policyDetails p with
        | .error e => .error e
        | .ok (w, b) =>
          draftScan quota rest (if w ≥ 0 then (w : ℚ) else win) (if b > 0 then b else burst)

/-- DraftRateLimit translation: fixed Rate-Limit header names, a numeric
Reset read as a delta in seconds, a Limit value carrying comma-separated
sub-policies whose window and burst override the defaults. -/
def DraftRateLimit (limit remaining reset : String) (window : ℚ) (now : ℚ)
    (parseDate : String → Option ℚ) : RateLimitResult :=
  let h := headersField "Rate-Limit" limit remaining reset
  if limit == "" || remaining == "" || reset == "" then onlyHeaders h
  else
    match goParseFloat remaining with
    | none => headersError h (parseFloatErr remaining)
    | some rem =>
      let resetParsed : Option (ℚ × ℚ) :=
        match goParseFloat reset with
        | some d => some (d, now + (goTrunc d : ℚ))
        | none =>
          match parseDate reset with
          | some t => some ((t - now), t)
          | none => none
      match resetParsed with
      | none => headersError h (resetParseErr reset)
      | some (per, resetTime) =>
        let limFields := goSplit limit ','
        match goAtoi (limFields.headD "") with
        | none => headersError h (atoiErr (limFields.headD ""))
        | some quota =>
          match draftScan quota limFields.tail window 1 with
          | .error e => headersError h e
          | .ok (win, burst) =>
            ⟨h, some (rem / per), some ((quota : ℚ) / win), some burst, some resetTime, none⟩

/-
Theorems.  Each claim of the specification review is settled by exactly one
theorem below, with a counterexample theorem where the claim as stated
fails on the source.
-/

/-- Claim C1, counterexample: the claim asserts that an escaped dot is
restored in every segment, so that the single-segment path dotted backslash
dot path addresses the map key dotted.path; on the source the final segment
is compared raw, the collation misses the key and the drop existence check
fails, leaving the map untouched. -/
theorem C1_counterexample :
    collateFields (.map [("dotted.path", .int 1)]) "dotted\\.path" = .list [] ∧
    collateFields (.map [("dotted.path", .int 1)]) "dotted\\.path" ≠ .list [.int 1] ∧
    dropFieldPath (.map [("dotted.path", .int 1)]) "dotted\\.path" =
      .map [("dotted.path", .int 1)] := by
  decide

/-- Claim C1, amended: a backslash-escaped dot is restored only in a head
segment that precedes a later unescaped dot; the final segment of a path
(in particular the whole of a single-segment path) is compared against map
keys in raw form with the backslash kept, so the path dotted backslash dot
path followed by dot b does address the key dotted.path at the first level,
while the single-segment path dotted backslash dot path addresses only the
literal key containing the backslash, not dotted.path. -/
theorem C1_amended (v : Value) :
    hasFieldPath (.map [("dotted.path", .map [("b", v)])]) "dotted\\.path.b" = .ok true ∧
    dropFieldPath (.map [("dotted.path", .map [("b", v)])]) "dotted\\.path.b" =
      .map [("dotted.path", .map [])] ∧
    hasFieldPath (.map [("dotted.path", v)]) "dotted\\.path" = .ok false ∧
    hasFieldPath (.map [("dotted\\.path", v)]) "dotted\\.path" = .ok true := by
  exact ⟨rfl, rfl, rfl, rfl⟩

/-- Claim C4: when the existence pre-check of drop walks the whole input
without a format error and finds the path nowhere, drop returns the root
value itself, structurally unchanged. -/
theorem C4_drop_absent_noop (root : Value) (path : String)
    (h : hasFieldPath root path = .ok false) : dropFieldPath root path = root := by
  cases root <;> simp [dropFieldPath, dropFieldElem, h]

/-- Witness for C4 at a concrete root and absent path. -/
theorem C4_drop_absent_noop_witness :
    hasFieldPath (Value.map [("a", Value.int 1)]) "b" = .ok false ∧
    dropFieldPath (Value.map [("a", Value.int 1)]) "b" = Value.map [("a", Value.int 1)] :=
  ⟨by decide, C4_drop_absent_noop (Value.map [("a", Value.int 1)]) "b" (by decide)⟩

/-- Helper for C5: the recursive branch of flattenParts concatenates the
recursive flattenings of the elements in order. -/
theorem flattenJoin_eq (xs : List Value) : flattenJoin xs = (xs.map flattenParts).flatten := by
  induction xs with
  | nil => rfl
  | cons x rest ih => simp [flattenJoin, ih]

/-- Claim C5: flatten recurses into a list only when every immediate
element is a list; as soon as one non-list element is present the entire
original list is appended as-is; and the nested example flattens to the
expected sequence. -/
theorem C5_flatten :
    (∀ xs : List Value, (∀ x ∈ xs, x.isList = true) →
      flattenParts (.list xs) = (xs.map flattenParts).flatten) ∧
    (∀ xs : List Value, (∃ x ∈ xs, x.isList = false) →
      flattenParts (.list xs) = xs) ∧
    flatten (.list [.list [.int 1], .list [.int 2, .int 3],
      .list [.list [.list [.int 4]], .list [.int 5, .int 6]]]) =
      .list [.int 1, .int 2, .int 3, .int 4, .int 5, .int 6] := by
  refine ⟨?_, ?_, by decide⟩
  · intro xs h
    have hall : xs.all Value.isList = true := List.all_eq_true.mpr h
    simp [flattenParts, hall, flattenJoin_eq]
  · intro xs h
    have hall : xs.all Value.isList = false := by
      rcases h with ⟨x, hx, hfx⟩
      have hnx : ¬(Value.isList x = true) := by simp [hfx]
      exact List.all_eq_false.mpr ⟨x, hx, hnx⟩
    simp [flattenParts, hall]

/-- Witness for C5 at a homogeneous and at a mixed concrete list. -/
theorem C5_flatten_witness :
    flattenParts (.list [.list []]) = ([Value.list []].map flattenParts).flatten ∧
    flattenParts (.list [.int 7]) = [.int 7] :=
  ⟨C5_flatten.1 [.list []] (by decide), C5_flatten.2.1 [.int 7] (by decide)⟩

/-- Helper for C6: the separator scan finds no separator in a dot-free
string and reports no escape. -/
theorem pathSepIndexGo_of_not_mem (l : List Char) (h : '.' ∉ l) :
    ∀ (prev : Option Char) (pos : Nat) (esc : Bool),
      pathSepIndexGo l prev pos esc = (none, esc) := by
  induction l with
  | nil => intro prev pos esc; rfl
  | cons c rest ih =>
    intro prev pos esc
    rw [pathSepIndexGo, if_neg]
    · exact ih (fun hm => h (List.mem_cons_of_mem _ hm)) _ _ _
    · exact fun hc => h (hc ▸ List.mem_cons_self _ _)

/-- Helper for C6: a dot-free path is a single raw segment. -/
theorem pathSepIndex_no_dot (k : String) (h : '.' ∉ k.data) :
    pathSepIndex k = (none, false) :=
  pathSepIndexGo_of_not_mem k.data h none 0 false

/-- Claim C6: at a terminal map hit collate splices a matched list value
flat and appends any other matched value whole, and on the two-level
example the path a returns the list under a whole while the path a.b
returns the collected scalars. -/
theorem C6_collate_splice :
    (∀ (k : String) (v : Value), '.' ∉ k.data →
      collateFieldPath (.map [(k, v)]) k =
        .ok (match v with | .list xs => xs | w => [w])) ∧
    collateFields (.map [("a", .list [.map [("b", .int 1)], .map [("b", .int 2)]])]) "a" =
      .list [.map [("b", .int 1)], .map [("b", .int 2)]] ∧
    collateFields (.map [("a", .list [.map [("b", .int 1)], .map [("b", .int 2)]])]) "a.b" =
      .list [.int 1, .int 2] := by
  refine ⟨?_, by decide, by decide⟩
  intro k v h
  have hp := pathSepIndex_no_dot k h
  cases v <;> simp [collateFieldPath, hp, spliceMatches]

/-- Witness for C6 at a list-valued and at a scalar-valued key. -/
theorem C6_collate_splice_witness :
    collateFieldPath (.map [("k", .list [.int 1, .int 2])]) "k" = .ok [.int 1, .int 2] ∧
    collateFieldPath (.map [("k", .int 3)]) "k" = .ok [.int 3] :=
  ⟨C6_collate_splice.1 "k" (.list [.int 1, .int 2]) (by decide),
   C6_collate_splice.1 "k" (.int 3) (by decide)⟩

/-- Helper for C8: a map whose values are all scalars has no nested empty
container. -/
theorem hasEmptyK_of_scalars (kvs : List (String × Value))
    (h : ∀ kv ∈ kvs, isContainer kv.2 = false) : hasEmptyK kvs = false := by
  induction kvs with
  | nil => rfl
  | cons kv rest ih =>
    obtain ⟨k, v⟩ := kv
    have hv := h (k, v) (List.mem_cons_self _ _)
    simp only at hv
    simp [hasEmptyK, hv, ih (fun kv hm => h kv (List.mem_cons_of_mem _ hm))]

/-- Helper for C8: a list of scalars has no nested empty container. -/
theorem hasEmptyL_of_scalars (xs : List Value)
    (h : ∀ x ∈ xs, isContainer x = false) : hasEmptyL xs = false := by
  induction xs with
  | nil => rfl
  | cons x rest ih =>
    have hv := h x (List.mem_cons_self _ _)
    simp [hasEmptyL, hv, ih (fun x hm => h x (List.mem_cons_of_mem _ hm))]

/-- Claim C8: drop_empty prunes children before judging their container,
removing the key whose list holds only empty maps while keeping the
populated key untouched, and never removes scalar values. -/
theorem C8_dropEmpty :
    dropEmpty (.map [("a", .list [.map [], .map [], .map []]),
      ("b", .list [.map [("b", .int (-1)), ("c", .int 10)]])]) =
      .map [("b", .list [.map [("b", .int (-1)), ("c", .int 10)]])] ∧
    (∀ kvs, (∀ kv ∈ kvs, isContainer kv.2 = false) → dropEmpty (.map kvs) = .map kvs) ∧
    (∀ xs, (∀ x ∈ xs, isContainer x = false) → dropEmpty (.list xs) = .list xs) := by
  refine ⟨by decide, ?_, ?_⟩
  · intro kvs h
    simp [dropEmpty, hasEmpty, isContainer, hasEmptyK_of_scalars kvs h]
  · intro xs h
    simp [dropEmpty, hasEmpty, isContainer, hasEmptyL_of_scalars xs h]

/-- Witness for C8: an empty string value and a zero integer are kept. -/
theorem C8_dropEmpty_witness :
    dropEmpty (.map [("x", .str "")]) = .map [("x", .str "")] ∧
    dropEmpty (.list [.int 0, .str ""]) = .list [.int 0, .str ""] :=
  ⟨C8_dropEmpty.2.1 [("x", .str "")] (by decide),
   C8_dropEmpty.2.2 [.int 0, .str ""] (by decide)⟩

/-- Helper for C9: a key outside the key list of a map is not contained. -/
theorem mapContains_eq_false (m : List (String × Value)) (k : String)
    (h : k ∉ m.map Prod.fst) : mapContains m k = false := by
  rw [mapContains, List.any_eq_false]
  intro kv hkv hbeq
  rw [beq_iff_eq] at hbeq
  exact h (hbeq ▸ List.mem_map_of_mem Prod.fst hkv)

/-- Helper for C9: assigning an absent key appends the binding. -/
theorem mapSet_append (m : List (String × Value)) (k : String) (v : Value)
    (h : k ∉ m.map Prod.fst) : mapSet m k v = m ++ [(k, v)] := by
  simp [mapSet, mapContains_eq_false m k h]

/-- Helper for C9: the withAll fold on disjoint sources appends. -/
theorem withAll_fold (s : List (String × Value)) : ∀ d : List (String × Value),
    (∀ kv ∈ s, kv.1 ∉ d.map Prod.fst) → (s.map Prod.fst).Nodup →
    s.foldl (fun m kv => mapSet m kv.1 kv.2) d = d ++ s := by
  induction s with
  | nil => intro d _ _; simp
  | cons kv rest ih =>
    intro d hd hn
    obtain ⟨k, v⟩ := kv
    have hk : k ∉ d.map Prod.fst := hd (k, v) (List.mem_cons_self _ _)
    have hkr : k ∉ rest.map Prod.fst := by
      simp only [List.map_cons, List.nodup_cons] at hn
      exact hn.1
    have hn' : (rest.map Prod.fst).Nodup := by
      simp only [List.map_cons, List.nodup_cons] at hn
      exact hn.2
    have hd' : ∀ kv' ∈ rest, kv'.1 ∉ (d ++ [(k, v)]).map Prod.fst := by
      intro kv' hm
      rw [List.map_append, List.mem_append]
      rintro (h1 | h2)
      · exact hd kv' (List.mem_cons_of_mem _ hm) h1
      · simp only [List.map_cons, List.map_nil, List.mem_singleton] at h2
        exact hkr (h2 ▸ List.mem_map_of_mem Prod.fst hm)
    rw [List.foldl_cons]
    have hstep : mapSet d k v = d ++ [(k, v)] := mapSet_append d k v hk
    simp only [hstep]
    rw [ih (d ++ [(k, v)]) hd' hn']
    simp

/-- Helper for C9: the withUpdate fold on disjoint sources appends too. -/
theorem withUpdate_fold (s : List (String × Value)) : ∀ d : List (String × Value),
    (∀ kv ∈ s, kv.1 ∉ d.map Prod.fst) → (s.map Prod.fst).Nodup →
    s.foldl (fun m kv => if mapContains m kv.1 then m else mapSet m kv.1 kv.2) d = d ++ s := by
  induction s with
  | nil => intro d _ _; simp
  | cons kv rest ih =>
    intro d hd hn
    obtain ⟨k, v⟩ := kv
    have hk : k ∉ d.map Prod.fst := hd (k, v) (List.mem_cons_self _ _)
    have hkr : k ∉ rest.map Prod.fst := by
      simp only [List.map_cons, List.nodup_cons] at hn
      exact hn.1
    have hn' : (rest.map Prod.fst).Nodup := by
      simp only [List.map_cons, List.nodup_cons] at hn
      exact hn.2
    have hd' : ∀ kv' ∈ rest, kv'.1 ∉ (d ++ [(k, v)]).map Prod.fst := by
      intro kv' hm
      rw [List.map_append, List.mem_append]
      rintro (h1 | h2)
      · exact hd kv' (List.mem_cons_of_mem _ hm) h1
      · simp only [List.map_cons, List.map_nil, List.mem_singleton] at h2
        exact hkr (h2 ▸ List.mem_map_of_mem Prod.fst hm)
    rw [List.foldl_cons]
    have hcont : mapContains d k = false := mapContains_eq_false d k hk
    have hstep : mapSet d k v = d ++ [(k, v)] := mapSet_append d k v hk
    simp only [hcont, Bool.false_eq_true, if_false, hstep]
    rw [ih (d ++ [(k, v)]) hd' hn']
    simp

/-- Helper for C9: the withReplace fold on disjoint sources is the
identity. -/
theorem withReplace_fold (s : List (String × Value)) : ∀ d : List (String × Value),
    (∀ kv ∈ s, kv.1 ∉ d.map Prod.fst) →
    s.foldl (fun m kv => if mapContains m kv.1 then mapSet m kv.1 kv.2 else m) d = d := by
  induction s with
  | nil => intro d _; simp
  | cons kv rest ih =>
    intro d hd
    obtain ⟨k, v⟩ := kv
    have hk : k ∉ d.map Prod.fst := hd (k, v) (List.mem_cons_self _ _)
    have hcont : mapContains d k = false := mapContains_eq_false d k hk
    rw [List.foldl_cons]
    simp only [hcont, Bool.false_eq_true, if_false]
    exact ih d (fun kv' hm => hd kv' (List.mem_cons_of_mem _ hm))

/-- Claim C9: on maps with disjoint key sets, with and with_update agree
and both produce the union, while with_replace returns dst unchanged. -/
theorem C9_with_family (d s : List (String × Value))
    (hdisj : ∀ kv ∈ s, kv.1 ∉ d.map Prod.fst) (hnod : (s.map Prod.fst).Nodup) :
    withAll (.map d) (.map s) = withUpdate (.map d) (.map s) ∧
    withAll (.map d) (.map s) = .map (d ++ s) ∧
    withReplace (.map d) (.map s) = .map d := by
  have h1 := withAll_fold s d hdisj hnod
  have h2 := withUpdate_fold s d hdisj hnod
  have h3 := withReplace_fold s d hdisj
  simp [withAll, withUpdate, withReplace, h1, h2, h3]

/-- Witness for C9 at concrete disjoint maps. -/
theorem C9_with_family_witness :
    withAll (.map [("a", .int 1)]) (.map [("b", .int 2)]) =
      withUpdate (.map [("a", .int 1)]) (.map [("b", .int 2)]) ∧
    withAll (.map [("a", .int 1)]) (.map [("b", .int 2)]) =
      .map ([("a", .int 1)] ++ [("b", .int 2)]) ∧
    withReplace (.map [("a", .int 1)]) (.map [("b", .int 2)]) = .map [("a", .int 1)] :=
  C9_with_family [("a", .int 1)] [("b", .int 2)] (by decide) (by decide)

mutual

/-- Helper for C10: without maps the existence walk finds nothing and
raises no error, for every path. -/
theorem noMap_hasField : ∀ (v : Value), hasMapIn v = false → ∀ p : String,
    hasFieldPath v p = .ok false
  | .int _, _, _ => rfl
  | .str _, _, _ => rfl
  | .err _, _, _ => rfl
  | .list xs, h, p => by
      have hx : hasMapInL xs = false := by simpa [hasMapIn] using h
      simpa [hasFieldPath] using noMap_hasFieldL xs hx p
  | .map _, h, _ => by simp [hasMapIn] at h

/-- List helper of noMap_hasField. -/
theorem noMap_hasFieldL : ∀ (xs : List Value), hasMapInL xs = false → ∀ p : String,
    hasFieldList xs p = .ok false
  | [], _, _ => rfl
  | x :: rest, h, p => by
      have hx : hasMapIn x = false := by
        rcases Bool.or_eq_false_iff.mp (by simpa [hasMapInL] using h) with ⟨h1, _⟩
        exact h1
      have hr : hasMapInL rest = false := by
        rcases Bool.or_eq_false_iff.mp (by simpa [hasMapInL] using h) with ⟨_, h2⟩
        exact h2
      simp [hasFieldList, noMap_hasField x hx p, noMap_hasFieldL rest hr p]

end

mutual

/-- Helper for C10: without maps collate raises no error and gathers the
scalar leaves exactly when the path is exhausted. -/
theorem noMap_collate : ∀ (v : Value), hasMapIn v = false → ∀ p : String,
    collateFieldPath v p = .ok (if p = "" then scalarLeaves v else [])
  | .int n, _, p => by
      by_cases hp : p = "" <;> simp [collateFieldPath, scalarLeaves, hp]
  | .str s, _, p => by
      by_cases hp : p = "" <;> simp [collateFieldPath, scalarLeaves, hp]
  | .err e, _, p => by
      by_cases hp : p = "" <;> simp [collateFieldPath, scalarLeaves, hp]
  | .list xs, h, p => by
      have hx : hasMapInL xs = false := by simpa [hasMapIn] using h
      have hl := noMap_collateL xs hx p
      by_cases hp : p = "" <;> simp [collateFieldPath, scalarLeaves, hp] <;>
        simpa [hp] using hl
  | .map _, h, _ => by simp [hasMapIn] at h

/-- List helper of noMap_collate. -/
theorem noMap_collateL : ∀ (xs : List Value), hasMapInL xs = false → ∀ p : String,
    collateFieldL xs p = .ok (if p = "" then scalarLeavesL xs else [])
  | [], _, p => by by_cases hp : p = "" <;> simp [collateFieldL, scalarLeavesL, hp]
  | x :: rest, h, p => by
      have hx : hasMapIn x = false := by
        rcases Bool.or_eq_false_iff.mp (by simpa [hasMapInL] using h) with ⟨h1, _⟩
        exact h1
      have hr : hasMapInL rest = false := by
        rcases Bool.or_eq_false_iff.mp (by simpa [hasMapInL] using h) with ⟨_, h2⟩
        exact h2
      have h1 := noMap_collate x hx p
      have h2 := noMap_collateL rest hr p
      by_cases hp : p = "" <;> simp [collateFieldL, scalarLeavesL, hp] <;>
        simp [hp] at h1 h2 <;> simp [h1, h2]

end

/-- Claim C10, counterexample: the claim asserts that on a map-free root the
collation is the empty list unless the root is a scalar and the path empty;
on the source a list of scalars with the empty path collates every scalar
leaf, not the empty list. -/
theorem C10_counterexample :
    collateFields (.list [.int 1, .int 2]) "" = .list [.int 1, .int 2] ∧
    collateFields (.list [.int 1, .int 2]) "" ≠ .list [] ∧
    Value.isList (.list [.int 1, .int 2]) = true := by
  decide

/-- Claim C10, amended: for every root containing no Map and every path
string, including malformed ones, drop returns the root unchanged with no
error, and collate returns, with no error, the depth-first list of scalar
leaves when the path is the empty string (in particular the root itself
when it is a scalar) and the empty list otherwise; the malformed-path
format error can only arise when the traversal reaches a Map. -/
theorem C10_amended (root : Value) (p : String) (h : hasMapIn root = false) :
    dropFieldPath root p = root ∧
    collateFieldPath root p = .ok (if p = "" then scalarLeaves root else []) ∧
    collateFields root p = .list (if p = "" then scalarLeaves root else []) := by
  have hh := noMap_hasField root h p
  have hc := noMap_collate root h p
  refine ⟨?_, hc, ?_⟩
  · cases root <;> simp [dropFieldPath, dropFieldElem, hh]
  · simp [collateFields, hc]

/-- Witness for C10 at a nested scalar list and a malformed path. -/
theorem C10_amended_witness :
    dropFieldPath (.list [.int 1, .list [.int 2]]) ".." = .list [.int 1, .list [.int 2]] ∧
    collateFieldPath (.list [.int 1, .list [.int 2]]) ".." = .ok [] ∧
    collateFields (.list [.int 1, .list [.int 2]]) ".." = .list [] := by
  simpa using C10_amended (.list [.int 1, .list [.int 2]]) ".." (by decide)

/-- Claim C2, counterexample: on the draft fixture with sub-policy window 1
and burst 1000 and a numeric Reset of 36000, the claim asserts rate = 100;
the source computes rate as Remaining divided by the Reset delta, which is
100 / 36000, and the sub-policy window only affects the next field. -/
theorem C2_counterexample :
    (DraftRateLimit "12, 12;window=1; burst=1000;policy=\"leaky bucket\"" "100" "36000" 60 0
      (fun _ => none)).burst = some 1000 ∧
    (DraftRateLimit "12, 12;window=1; burst=1000;policy=\"leaky bucket\"" "100" "36000" 60 0
      (fun _ => none)).rate = some (1 / 360) ∧
    (DraftRateLimit "12, 12;window=1; burst=1000;policy=\"leaky bucket\"" "100" "36000" 60 0
      (fun _ => none)).rate ≠ some 100 := by
  have h1 : goParseFloat "100" = some 100 := rfl
  have h2 : goParseFloat "36000" = some 36000 := rfl
  have h3 : goSplit "12, 12;window=1; burst=1000;policy=\"leaky bucket\"" ',' =
    ["12", " 12;window=1; burst=1000;policy=\"leaky bucket\""] := rfl
  have h4 : goAtoi "12" = some 12 := rfl
  have h5 : draftScan 12 [" 12;window=1; burst=1000;policy=\"leaky bucket\""] 60 1 =
    .ok (1, 1000) := rfl
  refine ⟨?_, ?_, ?_⟩ <;> simp [DraftRateLimit, h1, h2, h3, h4, h5] <;> norm_num

/-- Claim C2, amended: on the draft fixture the sub-policy burst 1000
overrides the default burst of 1, and its window 1 overrides the effective
window used in the next computation, giving next = 12; the rate is
Remaining divided by the Reset delta, 100 / 36000, unaffected by the
sub-policy window; the reset time is now plus 36000 seconds. -/
theorem C2_amended :
    DraftRateLimit "12, 12;window=1; burst=1000;policy=\"leaky bucket\"" "100" "36000" 60 0
      (fun _ => none) =
    ⟨"Rate-Limit-Limit=\"12, 12;window=1; burst=1000;policy=\\\"leaky bucket\\\"\" Rate-Limit-Remaining=\"100\" Rate-Limit-Reset=\"36000\"",
     some (1 / 360), some 12, some 1000, some 36000, none⟩ := by
  have h1 : goParseFloat "100" = some 100 := rfl
  have h2 : goParseFloat "36000" = some 36000 := rfl
  have h3 : goSplit "12, 12;window=1; burst=1000;policy=\"leaky bucket\"" ',' =
    ["12", " 12;window=1; burst=1000;policy=\"leaky bucket\""] := rfl
  have h4 : goAtoi "12" = some 12 := rfl
  have h5 : draftScan 12 [" 12;window=1; burst=1000;policy=\"leaky bucket\""] 60 1 =
    .ok (1, 1000) := rfl
  have h6 : headersField "Rate-Limit" "12, 12;window=1; burst=1000;policy=\"leaky bucket\""
      "100" "36000" =
    "Rate-Limit-Limit=\"12, 12;window=1; burst=1000;policy=\\\"leaky bucket\\\"\" Rate-Limit-Remaining=\"100\" Rate-Limit-Reset=\"36000\"" := rfl
  simp [DraftRateLimit, h1, h2, h3, h4, h5, h6]
  norm_num [goTrunc]

/-- Claim C3: in each of the three policy functions, an empty required
header value yields a result holding only the headers field, and, with all
three values non-empty, a required numeric value that fails to parse yields
a result holding headers and an error but no rate and no burst; the model
functions are total, so neither case is an exception or a top-level call
error. -/
theorem C3_failure_modes :
    (∀ (pfx l r s : String) (δ : Bool) (w : ℚ) (b : Int) (now : ℚ)
        (pd : String → Option ℚ), (l = "" ∨ r = "" ∨ s = "") →
      limitPolicy pfx l r s δ w b now pd = onlyHeaders (headersField pfx l r s)) ∧
    (∀ (l r s : String) (w now : ℚ), (l = "" ∨ r = "" ∨ s = "") →
      OktaRateLimit l r s w now = onlyHeaders (headersField "X-Rate-Limit" l r s)) ∧
    (∀ (l r s : String) (w now : ℚ) (pd : String → Option ℚ), (l = "" ∨ r = "" ∨ s = "") →
      DraftRateLimit l r s w now pd = onlyHeaders (headersField "Rate-Limit" l r s)) ∧
    (∀ (pfx l r s : String) (δ : Bool) (w : ℚ) (b : Int) (now : ℚ) (pd : String → Option ℚ),
      l ≠ "" → r ≠ "" → s ≠ "" → (goParseFloat l = none ∨ goParseFloat r = none) →
      (limitPolicy pfx l r s δ w b now pd).error.isSome = true ∧
      (limitPolicy pfx l r s δ w b now pd).rate = none ∧
      (limitPolicy pfx l r s δ w b now pd).burst = none) ∧
    (∀ (l r s : String) (w now : ℚ), l ≠ "" → r ≠ "" → s ≠ "" →
      (goParseFloat l = none ∨ goParseFloat r = none) →
      (OktaRateLimit l r s w now).error.isSome = true ∧
      (OktaRateLimit l r s w now).rate = none ∧ (OktaRateLimit l r s w now).burst = none) ∧
    (∀ (l r s : String) (w now : ℚ) (pd : String → Option ℚ), l ≠ "" → r ≠ "" → s ≠ "" →
      (goParseFloat r = none ∨ goAtoi ((goSplit l ',').headD "") = none) →
      (DraftRateLimit l r s w now pd).error.isSome = true ∧
      (DraftRateLimit l r s w now pd).rate = none ∧
      (DraftRateLimit l r s w now pd).burst = none) := by
  refine ⟨?_, ?_, ?_, ?_, ?_, ?_⟩
  · intro pfx l r s δ w b now pd h
    rcases h with h | h | h <;> simp [limitPolicy, h, onlyHeaders]
  · intro l r s w now h
    rcases h with h | h | h <;> simp [OktaRateLimit, h, onlyHeaders]
  · intro l r s w now pd h
    rcases h with h | h | h <;> simp [DraftRateLimit, h, onlyHeaders]
  · intro pfx l r s δ w b now pd hl hr hs hp
    have hcond : (l == "" || r == "" || s == "") = false := by simp [hl, hr, hs]
    rcases hp with hp | hp
    · simp [limitPolicy, hcond, hp, headersError]
    · cases hgl : goParseFloat l <;>
        simp [limitPolicy, hcond, hgl, hp, headersError]
  · intro l r s w now hl hr hs hp
    have hcond : (l == "" || r == "" || s == "") = false := by simp [hl, hr, hs]
    rcases hp with hp | hp
    · simp [OktaRateLimit, hcond, hp, headersError]
    · cases hgl : goParseFloat l <;>
        simp [OktaRateLimit, hcond, hgl, hp, headersError]
  · intro l r s w now pd hl hr hs hp
    have hcond : (l == "" || r == "" || s == "") = false := by simp [hl, hr, hs]
    rcases hp with hp | hp
    · simp [DraftRateLimit, hcond, hp, headersError]
    · rw [List.headD_eq_head?_getD] at hp
      cases hgr : goParseFloat r with
      | none => simp [DraftRateLimit, hcond, hgr, headersError]
      | some rem =>
        cases hgs : goParseFloat s with
        | none =>
          cases hpd : pd s with
          | none => simp [DraftRateLimit, hcond, hgr, hgs, hpd, headersError]
          | some t => simp [DraftRateLimit, hcond, hgr, hgs, hpd, hp, headersError]
        | some dv => simp [DraftRateLimit, hcond, hgr, hgs, hp, headersError]

/-- Witness for C3: each failure mode of each dialect at concrete
headers. -/
theorem C3_failure_modes_witness :
    limitPolicy "P" "" "1" "2" true 60 5 0 (fun _ => none) =
      onlyHeaders (headersField "P" "" "1" "2") ∧
    OktaRateLimit "" "1" "2" 60 0 = onlyHeaders (headersField "X-Rate-Limit" "" "1" "2") ∧
    DraftRateLimit "" "1" "2" 60 0 (fun _ => none) =
      onlyHeaders (headersField "Rate-Limit" "" "1" "2") ∧
    ((limitPolicy "P" "x" "1" "2" true 60 5 0 (fun _ => none)).error.isSome = true ∧
      (limitPolicy "P" "x" "1" "2" true 60 5 0 (fun _ => none)).rate = none ∧
      (limitPolicy "P" "x" "1" "2" true 60 5 0 (fun _ => none)).burst = none) ∧
    ((OktaRateLimit "0" "bad syntax" "2" 60 0).error.isSome = true ∧
      (OktaRateLimit "0" "bad syntax" "2" 60 0).rate = none ∧
      (OktaRateLimit "0" "bad syntax" "2" 60 0).burst = none) ∧
    ((DraftRateLimit "bogus" "100" "36000" 60 0 (fun _ => none)).error.isSome = true ∧
      (DraftRateLimit "bogus" "100" "36000" 60 0 (fun _ => none)).rate = none ∧
      (DraftRateLimit "bogus" "100" "36000" 60 0 (fun _ => none)).burst = none) :=
  ⟨C3_failure_modes.1 "P" "" "1" "2" true 60 5 0 (fun _ => none) (Or.inl rfl),
   C3_failure_modes.2.1 "" "1" "2" 60 0 (Or.inl rfl),
   C3_failure_modes.2.2.1 "" "1" "2" 60 0 (fun _ => none) (Or.inl rfl),
   C3_failure_modes.2.2.2.1 "P" "x" "1" "2" true 60 5 0 (fun _ => none)
     (by decide) (by decide) (by decide) (Or.inl (by decide)),
   C3_failure_modes.2.2.2.2.1 "0" "bad syntax" "2" 60 0
     (by decide) (by decide) (by decide) (Or.inr (by decide)),
   C3_failure_modes.2.2.2.2.2 "bogus" "100" "36000" 60 0 (fun _ => none)
     (by decide) (by decide) (by decide) (Or.inr (by decide))⟩

/-- Helper for C7: every successful branch of the reset parsing chain
yields an initial per equal to the seconds until the reset time. -/
theorem parseReset_per (δ : Bool) (now : ℚ) (pd : String → Option ℚ) (s : String)
    (per0 rT : ℚ) (h : parseReset δ now pd s = some (per0, rT)) : per0 = rT - now := by
  unfold parseReset at h
  cases hga : goAtoi s with
  | some d =>
    rw [hga] at h
    cases δ <;> simp only [if_true, if_false, Bool.false_eq_true, ite_true, ite_false,
      Option.some.injEq, Prod.mk.injEq] at h <;> rcases h with ⟨h1, h2⟩ <;> subst h1 <;>
      subst h2 <;> ring
  | none =>
    rw [hga] at h
    cases hpd : pd s with
    | none => rw [hpd] at h; cases h
    | some t =>
      rw [hpd] at h
      simp only [Option.some.injEq, Prod.mk.injEq] at h
      rcases h with ⟨h1, h2⟩
      subst h1; subst h2; ring

/-- Claim C7: with all three header values present and successfully
parsed, the generic policy returns rate = Remaining divided by
(secondsUntil(resetTime) times windowSeconds), next = Limit divided by
windowSeconds, burst = max(minBurst, 1), and reset = the reset time, whose
UTC rendering denotes the same instant; the initial per of the parsing
chain equals secondsUntil(resetTime), a bare integer Reset being a delta
when isDelta and a Unix timestamp otherwise. -/
theorem C7_limitPolicy (pfx l r s : String) (δ : Bool) (win : ℚ) (b : Int)
    (now : ℚ) (pd : String → Option ℚ) (lim rem per0 rT : ℚ)
    (hl : l ≠ "") (hr : r ≠ "") (hs : s ≠ "")
    (hpl : goParseFloat l = some lim) (hpr : goParseFloat r = some rem)
    (hrst : parseReset δ now pd s = some (per0, rT)) :
    limitPolicy pfx l r s δ win b now pd =
      ⟨headersField pfx l r s, some (rem / ((rT - now) * win)), some (lim / win),
       some (max b 1), some rT, none⟩ ∧ per0 = rT - now := by
  have hper : per0 = rT - now := parseReset_per δ now pd s per0 rT hrst
  have hcond : (l == "" || r == "" || s == "") = false := by simp [hl, hr, hs]
  have hburst : (if b < 1 then (1 : Int) else b) = max b 1 := by
    rcases lt_or_le b 1 with hb | hb
    · rw [if_pos hb, max_eq_right (le_of_lt hb)]
    · rw [if_neg (not_lt.mpr hb), max_eq_left hb]
  refine ⟨?_, hper⟩
  simp [limitPolicy, hcond, hpl, hpr, hrst, hburst, ← hper]

/-- Witness for C7 at the delta-second fixture of the general policy. -/
theorem C7_limitPolicy_witness :
    limitPolicy "Rate-Limit" "5000" "100" "36000" true 60 0 0 (fun _ => none) =
      ⟨headersField "Rate-Limit" "5000" "100" "36000",
       some ((100 : ℚ) / (((36000 : ℚ) - 0) * 60)), some ((5000 : ℚ) / 60),
       some (max 0 1), some 36000, none⟩ ∧ (36000 : ℚ) = 36000 - 0 := by
  have hrst : parseReset true 0 (fun _ => none) "36000" = some (36000, 36000) := by
    have hga : goAtoi "36000" = some 36000 := rfl
    simp [parseReset, hga]
  exact C7_limitPolicy "Rate-Limit" "5000" "100" "36000" true 60 0 0 (fun _ => none)
    5000 100 36000 36000 (by decide) (by decide) (by decide) rfl rfl hrst

end Mito
